import Mathlib

/-!
Verification of the news crawler (src/crawler.py).

The Python source is shallowly embedded: pure fragments become Lean functions
over `String` and `List Char`; the network, the HTML parser (BeautifulSoup)
and the filesystem are passed in as explicit oracles; a Python `try/except`
that swallows an exception becomes an `Option` or an early empty result,
mirroring the source's control flow.

Python string primitives (strip, split on a one-character separator, lower,
the `in` substring test, replace of the separator by the empty string) are
modelled by executable functions on the underlying character lists, with the
ASCII behaviour of `Char.toLower` standing in for full Unicode case mapping.
Regular expressions are embedded by direct matchers for the two concrete
patterns the source compiles; the publisher token interpolated into the story
pattern is matched literally (tokens containing regex metacharacters are
outside the modelled scope).
-/

namespace Crawler

/-- Python str.strip character class, restricted to ASCII whitespace. -/
def isPySpace (c : Char) : Bool :=
  c = ' ' || c = '\t' || c = '\n' || c = '\r' || c = '\x0b' || c = '\x0c'

/-- Python str.strip(): drop whitespace from both ends. -/
def pyStrip (l : List Char) : List Char :=
  ((l.dropWhile isPySpace).reverse.dropWhile isPySpace).reverse

def pyStripStr (s : String) : String :=
  String.mk (pyStrip s.data)

/-- Python str.split(sep) for a single-character separator: the maximal
chunks between occurrences of `sep`, keeping empty chunks. -/
def pySplit (sep : Char) : List Char → List (List Char)
  | [] => [[]]
  | c :: rest =>
    match pySplit sep rest with
    | [] => [[]]
    | h :: t => if c = sep then [] :: h :: t else (c :: h) :: t

/-- line.split of the ledger field separator, on strings. -/
def pySplitCaretStr (s : String) : List String :=
  (pySplit '^' s.data).map (fun l => String.mk l)

/-- Python str.lower(), per character (ASCII model). -/
def py_lower (s : String) : String :=
  String.mk (s.data.map Char.toLower)

/-- Python `needle in hay` substring test. -/
def pySubstr (needle hay : String) : Bool :=
  hay.data.tails.any (fun t => needle.data.isPrefixOf t)

/-- text.replace of the separator by the empty string (crawler.py line 194)
removes every occurrence of the one-character separator, i.e. filters it. -/
def removeCarets (s : String) : String :=
  String.mk (s.data.filter (fun c => c ≠ '^'))

/-- crawler.py urls_crawled_in_file, lines 97-120, after the raw lines have
been stripped.  A line that does not split into exactly 8 caret fields makes
the loop raise; the except clause swallows the exception, so the urls
collected before that line are returned and the rest of the file is dropped.
The Python set is modelled as the list of collected values (membership is
what the callers use). -/
def urlsFromLines : List String → List String
  | [] => []
  | line :: rest =>
    let values := pySplitCaretStr line
    if values.length = 8 then values.getD 4 "" :: urlsFromLines rest
    else []

/-- crawler.py urls_crawled_in_file applied to the raw readlines output:
each line is stripped first (line 109). -/
def urls_crawled_in_file (rawLines : List String) : List String :=
  urlsFromLines (rawLines.map pyStripStr)

/-- crawler.py urls_crawled_in_dir, lines 123-130: the union over every
regular file of the directory.  A directory is modelled as the list of its
files, each file as its list of raw lines. -/
def urls_crawled_in_dir (files : List (List String)) : List String :=
  files.foldl (fun acc f => acc ++ urls_crawled_in_file f) []

/-- Python readlines: split a byte stream into physical lines, each keeping
its terminating newline; a final chunk without a newline is a line too. -/
def pyReadLines : List Char → List String
  | [] => []
  | c :: rest =>
    if c = '\n' then "\n" :: pyReadLines rest
    else
      match pyReadLines rest with
      | [] => [String.mk [c]]
      | h :: t => String.mk (c :: h.data) :: t

/-- The physical lines of the ledger file after a sequence of writes: the
file holds the bytes of the appended strings in order, and readlines cuts
them at newlines - a write containing an interior newline therefore lands as
several physical lines. -/
def ledger_physical_lines (ws : List String) : List String :=
  pyReadLines (ws.map String.data).flatten

/-- Spec side (spec sections 4.1 and 8): a raw ledger line is well formed
when its stripped form splits into exactly 8 caret-delimited fields. -/
def specWellFormed (rawLine : String) : Bool :=
  (pySplitCaretStr (pyStripStr rawLine)).length = 8

/-- Spec side: the identity key (5th field, index 4) of a raw ledger line. -/
def specField5 (rawLine : String) : String :=
  (pySplitCaretStr (pyStripStr rawLine)).getD 4 ""

/-- An HTML page at the granularity crawler.py inspects it through
BeautifulSoup: `title` is `some t` when the document has a title element
whose string is `t` (when the element is absent, soup.title is None and the
attribute access on line 181 raises); `body` is `some (ps, ss)` when the
document has a body element, with `ps` and `ss` the stripped-relevant
strings of its paragraph and span elements that carry text, in document
order (when the body is absent, find_all on line 186 raises). -/
structure Page where
  title : Option String
  body : Option (List String × List String)
deriving DecidableEq

/-- The result dictionary built by crawler.py crawl, lines 196-199. -/
structure CrawlResult where
  url : String
  title : String
  body : String
deriving DecidableEq

/-- Body text accumulation of crawl (crawler.py lines 184-194): the stripped
string of each paragraph element, then of each span element, each followed by
a single space, concatenated; finally every separator character is removed. -/
def crawl_body_text (ps ss : List String) : String :=
  removeCarets ((ps ++ ss).foldl (fun acc s => acc ++ pyStripStr s ++ " ") "")

/-- crawler.py crawl, lines 169-204.  `fetchPage url` is none when
requests.get raises or raise_for_status fails; a missing title or missing
body raises inside the try, and every exception yields result None. -/
def crawl (fetchPage : String → Option Page) (url : String) : Option CrawlResult :=
  match fetchPage url with
  | none => none
  | some page =>
    match page.title with
    | none => none
    | some title =>
      match page.body with
      | none => none
      | some (ps, ss) => some { url := url, title := title, body := crawl_body_text ps ss }

/-- The eight caret-joined fields of crawler.py save_result (lines 142-166)
without the trailing newline, in source order: the fixed placeholders
locationLong and locationLat, the fixed tag spider, the timestamp (passed in,
since current_date_for_timestamp reads the wall clock), the record's url
(the identity key), the fixed placeholders userName and screenName, and the
composite tweeted_text built on line 155. -/
def ledger_line_core (date_of_tweet : String) (result : CrawlResult) : List Char :=
  "locationLong".data ++ '^' :: ("locationLat".data ++ '^' :: ("spider".data ++
    '^' :: (date_of_tweet.data ++ '^' :: (result.url.data ++
    '^' :: ("userName".data ++ '^' :: ("screenName".data ++
    '^' :: ("<title>".data ++ result.title.data ++ "</title><body>".data ++
    result.body.data ++ "</body>".data)))))))

/-- crawler.py save_result: the exact string appended to the ledger file,
newline-terminated. -/
def save_result (date_of_tweet : String) (result : CrawlResult) : String :=
  String.mk (ledger_line_core date_of_tweet result ++ ['\n'])

/-- The scheme alternation shared by both regexes of crawler.py (lines 215
and 221), anchored at the start; returns the remainder after the scheme. -/
def stripScheme (l : List Char) : Option (List Char) :=
  if "http://".data.isPrefixOf l then some (l.drop 7)
  else if "https://".data.isPrefixOf l then some (l.drop 8)
  else none

/-- The tail condition after the dot chosen by the greedy group of the
publisher regex on line 215: at least two characters, none a newline (a
regex dot does not match a newline), where the end anchor also accepts a
position just before one final newline. -/
def pubTailOk (t : List Char) : Bool :=
  let t2 := if t.getLast? = some '\n' then t.dropLast else t
  2 ≤ t2.length && t2.all (fun c => c ≠ '\n')

/-- The greedy group 2 of the publisher regex of crawler.py line 215: the
prefix before the rightmost dot whose prefix is newline-free and whose tail
satisfies `pubTailOk`; none when no dot qualifies, in which case re.search
returns None and the group call raises (caught on line 245). -/
def searchG2 : List Char → Option (List Char)
  | [] => none
  | c :: rest =>
    match searchG2 rest with
    | some p => if c = '\n' then none else some (c :: p)
    | none => if c = '.' && pubTailOk rest then some [] else none

/-- The lowercased dot-labels of the regex group 2 of the seed url
(crawler.py lines 215-218); none when the regex does not match or when the
group strips to the empty string (line 216 guard). -/
def seed_publishers (url : String) : Option (List String) :=
  match stripScheme url.data with
  | none => none
  | some rest =>
    match searchG2 rest with
    | none => none
    | some g2 =>
      if pyStrip g2 = [] then none
      else some ((pySplit '.' g2).map (fun p => String.mk (p.map Char.toLower)))

/-- The publisher token: the last element of the publishers list
(crawler.py line 219). -/
def publisher_token (url : String) : Option String :=
  (seed_publishers url).map (fun ps => ps.getLastD "")

/-- The character class of the story pattern between the token and the
slash: a dot, a word character (ASCII model) or a hyphen. -/
def isStoryClassChar (c : Char) : Bool :=
  c = '.' || c.isAlphanum || c = '_' || c = '-'

/-- The final part of the story pattern after the slash: at least one
character, none a newline, with the end anchor also accepting a position
just before one final newline (the optional trailing slash of the pattern is
subsumed by the one-or-more wildcard before it). -/
def storyTailOk (t : List Char) : Bool :=
  let t2 := if t.getLast? = some '\n' then t.dropLast else t
  1 ≤ t2.length && t2.all (fun c => c ≠ '\n')

/-- After the token: a run of class characters, then a literal slash, then
the tail.  The class cannot contain a slash, so the run extends exactly to
the first non-class character, which must be a slash. -/
def classSlashTail : List Char → Bool
  | [] => false
  | c :: rest =>
    if c = '/' then storyTailOk rest
    else if isStoryClassChar c then classSlashTail rest
    else false

def dropPrefixOpt (p l : List Char) : Option (List Char) :=
  if p.isPrefixOf l then some (l.drop p.length) else none

/-- Try the token (matched literally) at the current position, followed by
the class run, the slash and the tail. -/
def tryStoryAt (tok l : List Char) : Bool :=
  match dropPrefixOpt tok l with
  | some rest => classSlashTail rest
  | none => false

/-- The wildcard before the token: some position, reachable without crossing
a newline, where `tryStoryAt` succeeds. -/
def scanStory (tok : List Char) : List Char → Bool
  | [] => tryStoryAt tok []
  | c :: rest => tryStoryAt tok (c :: rest) || (c ≠ '\n' && scanStory tok rest)

/-- A wildcard followed by a bare literal with nothing required after it:
some position, reachable without crossing a newline, where the literal
occurs. -/
def scanLit (tok : List Char) : List Char → Bool
  | [] => tok.isPrefixOf []
  | c :: rest => tok.isPrefixOf (c :: rest) || (c ≠ '\n' && scanLit tok rest)

/-- One alternation branch of the story pattern when the whole token sits in
it: the scheme alternation anchored at the start, a wildcard, the token, a
class run, a slash and a non-empty tail. -/
def single_branch_match (s0 : List Char) (link : String) : Bool :=
  match stripScheme link.data with
  | none => false
  | some rest => scanStory s0 rest

/-- pattern_story.match(link) for the pattern compiled on crawler.py line
221.  The publisher token is spliced textually into the pattern source, so a
vertical bar inside the token splits the WHOLE pattern into top-level
alternation branches: the first branch keeps the scheme anchor and the
wildcard but ends with the token's first segment (nothing required after
it), middle segments become bare literals matched at position 0, and the
last segment keeps the class run, the slash and the tail - both the middle
and the last branch are schemeless.  Segments are matched literally; tokens
whose segments contain further regex metacharacters may match a different
link set in the real pattern, but every such pattern is still a single
scheme-anchored branch unless a top-level bar is present, so the bar is the
one metacharacter that changes the anchoring structure. -/
def pattern_story_match (tok link : String) : Bool :=
  match pySplit '|' tok.data with
  | [] => false
  | [s0] => single_branch_match s0 link
  | s0 :: rest0 =>
    (match stripScheme link.data with
      | none => false
      | some rest => scanLit s0 rest) ||
      rest0.dropLast.any (fun si => si.isPrefixOf link.data) ||
      tryStoryAt (rest0.getLastD []) link.data

/-- The candidate test applied to each lowercased href in crawler.py lines
231-242: the story pattern must match, some publisher label must occur as a
substring, and, when the filter list is non-empty, some filter must occur as
a substring. -/
def link_keep (publishers : List String) (last_publisher : String) (filter_list : List String) (link : String) : Bool :=
  pattern_story_match last_publisher link &&
    publishers.any (fun p => pySubstr p link) &&
    (if 0 < filter_list.length then filter_list.any (fun f => pySubstr f link) else true)

/-- crawler.py get_links, lines 207-248.  `fetchLinks url` is the list of
href attributes of the anchors of the fetched page's body, in document order;
none models a fetch or parse failure, which the except clause on line 245
turns into an empty link list, as does a non-matching publisher regex or a
publisher group that strips to the empty string. -/
def get_links (fetchLinks : String → Option (List String)) (url : String) (filter_list : List String) : List String :=
  match seed_publishers url with
  | none => []
  | some publishers =>
    let last_publisher := publishers.getLastD ""
    match fetchLinks url with
    | none => []
    | some hrefs => (hrefs.map py_lower).filter (link_keep publishers last_publisher filter_list)

/-- The in-memory state of one orchestrator run: the crawled set (modelled
as the list of its members) and the lines appended to the ledger file. -/
structure RunState where
  urls_crawled : List String
  written : List String
deriving DecidableEq

/-- Inner loop body of main, crawler.py lines 295-299: skip links already
crawled, persist a successful extraction, always mark the link crawled. -/
def process_link (fetchPage : String → Option Page) (date : String) (st : RunState) (link : String) : RunState :=
  if link ∈ st.urls_crawled then st
  else
    match crawl fetchPage link with
    | some r => { urls_crawled := st.urls_crawled ++ [link], written := st.written ++ [save_result date r] }
    | none => { st with urls_crawled := st.urls_crawled ++ [link] }

/-- Outer loop body of main, crawler.py lines 291-299: seeds already in the
crawled set are skipped, and seeds are never themselves added to it. -/
def process_seed (fetchLinks : String → Option (List String)) (fetchPage : String → Option Page) (date : String) (filter_list : List String) (st : RunState) (url : String) : RunState :=
  if url ∈ st.urls_crawled then st
  else (get_links fetchLinks url filter_list).foldl (process_link fetchPage date) st

/-- One orchestrator run over the seed set, starting from the crawled set
loaded from the ledger directory; `written` accumulates the appended lines. -/
def run_crawler (fetchLinks : String → Option (List String)) (fetchPage : String → Option Page) (date : String) (filter_list : List String) (seeds : List String) (initial : List String) : RunState :=
  seeds.foldl (process_seed fetchLinks fetchPage date filter_list) { urls_crawled := initial, written := [] }

/-- The lock-relevant state of the ledger file handle. -/
structure LedgerHandle where
  isOpen : Bool
  locked : Bool
deriving DecidableEq

/-- wait_and_lock_file, crawler.py lines 36-50: polls until the exclusive
flock is acquired. -/
def lockHandle (h : LedgerHandle) : LedgerHandle := { h with locked := true }

/-- unlock_file, crawler.py lines 53-57. -/
def unlockHandle (h : LedgerHandle) : LedgerHandle := { h with locked := false }

/-- Closing the file object: flock locks are released by the operating
system when the file is closed, so close also clears the lock. -/
def closeHandle (_h : LedgerHandle) : LedgerHandle := { isOpen := false, locked := false }

/-- The with-statement of crawler.py line 289 around the locked section: the
body runs on the freshly opened handle; the handle is closed both when the
body completes and when it raises, and a raised exception (modelled as
`some message`) then propagates. -/
def withOpenLedger (body : LedgerHandle → LedgerHandle × Option String) : LedgerHandle × Option String :=
  let r := body { isOpen := true, locked := false }
  (closeHandle r.1, r.2)

/-- The locked section of main, crawler.py lines 290-300: acquire the lock,
run the seed loop (`loopError = some e` models an exception, for example a
failed write inside save_result, escaping the loop), and call unlock_file
only when the loop completes.  The source has no try/finally, so the
explicit unlock is skipped on the exception path; the lock is then released
only by the with-statement closing the file. -/
def mainLockedSection (loopError : Option String) (h : LedgerHandle) : LedgerHandle × Option String :=
  let h1 := lockHandle h
  match loopError with
  | some e => (h1, some e)
  | none => (unlockHandle h1, none)

/-- main's with-block, crawler.py lines 289-300. -/
def run_main_locked (loopError : Option String) : LedgerHandle × Option String :=
  withOpenLedger (mainLockedSection loopError)

/-- A one-story site used for concrete runs: the seed page links to a single
story page. -/
def demoFetchLinks (u : String) : Option (List String) :=
  if u = "http://ss.aaa/" then some ["http://ss.aaa/story1"] else none

/-- The story page of `demoFetchLinks`, with a clean title. -/
def demoFetchPage (u : String) : Option Page :=
  if u = "http://ss.aaa/story1" then some { title := some "T", body := some (["B"], []) } else none

/-- The same site but the story title contains the field separator. -/
def caretFetchPage (u : String) : Option Page :=
  if u = "http://ss.aaa/story1" then some { title := some "T^", body := some (["B"], []) } else none

/-- A fetchable page without a title element. -/
def pageNoTitle : Page := { title := none, body := some ([], []) }

/-- A site whose only page lacks a title element. -/
def noTitleFetchPage (u : String) : Option Page :=
  if u = "http://u/" then some pageNoTitle else none

/-- A seed whose derived publisher token contains a vertical bar
(group 2 of the publisher regex is x.com/a|b, so the token is com/a|b), and
whose listing page carries a schemeless href. -/
def pipeFetchLinks (u : String) : Option (List String) :=
  if u = "http://x.com/a|b.html" then some ["brown-fox/story"] else none

/-! ### Character-level lemmas -/

theorem toNat_ofNat_valid (n : Nat) (h : n.isValidChar) : (Char.ofNat n).toNat = n := by
  rw [Char.ofNat, dif_pos h]
  simp [Char.ofNatAux, Char.toNat, UInt32.toNat]

theorem char_toLower_idem (c : Char) : c.toLower.toLower = c.toLower := by
  unfold Char.toLower
  by_cases h : c.toNat ≥ 65 ∧ c.toNat ≤ 90
  · rw [if_pos h]
    have hv : Nat.isValidChar (c.toNat + 32) := Or.inl (by omega)
    have ht : (Char.ofNat (c.toNat + 32)).toNat = c.toNat + 32 := toNat_ofNat_valid _ hv
    rw [if_neg (by omega)]
  · rw [if_neg h, if_neg h]

/-- Lowercasing only produces characters of code point at least 97 apart
from fixed points, so a character below 97 in the image was already there. -/
theorem char_toLower_eq_of_lt (c a : Char) (ha : a.toNat < 97) (h : c.toLower = a) : c = a := by
  unfold Char.toLower at h
  by_cases hc : c.toNat ≥ 65 ∧ c.toNat ≤ 90
  · rw [if_pos hc] at h
    have hv : Nat.isValidChar (c.toNat + 32) := Or.inl (by omega)
    have ht : (Char.ofNat (c.toNat + 32)).toNat = c.toNat + 32 := toNat_ofNat_valid _ hv
    rw [h] at ht
    omega
  · rwa [if_neg hc] at h

theorem mem_py_lower_of_lt (s : String) (a : Char) (ha : a.toNat < 97)
    (h : a ∈ (py_lower s).data) : a ∈ s.data := by
  unfold py_lower at h
  rcases List.mem_map.mp h with ⟨c, hc, hEq⟩
  rcases char_toLower_eq_of_lt c a ha hEq
  exact hc

/-! ### Lemmas about the Python split model -/

theorem pySplit_ne_nil (sep : Char) (l : List Char) : pySplit sep l ≠ [] := by
  cases l with
  | nil => simp [pySplit]
  | cons c rest =>
    unfold pySplit
    cases h : pySplit sep rest with
    | nil => simp
    | cons a t =>
      by_cases hc : c = sep <;> simp [hc]

theorem pySplit_no_sep (sep : Char) (l : List Char) (h : sep ∉ l) : pySplit sep l = [l] := by
  induction l with
  | nil => rfl
  | cons c rest ih =>
    have h1 : sep ∉ rest := fun hm => h (List.mem_cons_of_mem _ hm)
    have h2 : ¬ (c = sep) := fun he => h (he ▸ List.mem_cons_self _ _)
    unfold pySplit
    rw [ih h1]
    simp [h2]

theorem pySplit_cons_step (sep c : Char) (rest : List Char) :
    pySplit sep (c :: rest) =
      match pySplit sep rest with
      | [] => [[]]
      | h :: t => if c = sep then [] :: h :: t else (c :: h) :: t := rfl

theorem pySplit_append_cons (sep : Char) (a b : List Char) (h : sep ∉ a) :
    pySplit sep (a ++ sep :: b) = a :: pySplit sep b := by
  induction a with
  | nil =>
    show pySplit sep (sep :: b) = [] :: pySplit sep b
    rw [pySplit_cons_step]
    cases hb : pySplit sep b with
    | nil => exact absurd hb (pySplit_ne_nil sep b)
    | cons x t => simp
  | cons c a2 ih =>
    have h1 : sep ∉ a2 := fun hm => h (List.mem_cons_of_mem _ hm)
    have h2 : ¬ (c = sep) := fun he => h (he ▸ List.mem_cons_self _ _)
    show pySplit sep (c :: (a2 ++ sep :: b)) = (c :: a2) :: pySplit sep b
    rw [pySplit_cons_step, ih h1]
    simp [h2]

theorem pySplit_length (sep : Char) (l : List Char) :
    (pySplit sep l).length = l.count sep + 1 := by
  induction l with
  | nil => rfl
  | cons c rest ih =>
    unfold pySplit
    cases hr : pySplit sep rest with
    | nil => exact absurd hr (pySplit_ne_nil sep rest)
    | cons x t =>
      rw [hr] at ih
      by_cases hc : c = sep
      · simp only [hc, if_pos rfl, List.length_cons, List.count_cons]
        simp at ih ⊢
        omega
      · simp only [if_neg hc, List.length_cons, List.count_cons]
        simp [hc] at ih ⊢
        omega

/-! ### Lemmas about the Python strip model -/

theorem dropWhile_eq_self_of_head (p : Char → Bool) (l : List Char) (x : Char)
    (hhead : l.head? = some x) (hx : p x = false) : l.dropWhile p = l := by
  cases l with
  | nil => simp at hhead
  | cons c t =>
    have : c = x := by simpa using hhead
    subst this
    simp [List.dropWhile_cons, hx]

theorem count_dropWhile (p : Char → Bool) (a : Char) (ha : p a = false) (l : List Char) :
    (l.dropWhile p).count a = l.count a := by
  induction l with
  | nil => rfl
  | cons c t ih =>
    by_cases hc : p c
    · have hne : ¬ (c = a) := by
        intro he
        rw [he, ha] at hc
        exact Bool.noConfusion hc
      rw [List.dropWhile_cons, if_pos hc, ih]
      simp [List.count_cons, hne]
    · rw [List.dropWhile_cons, if_neg hc]

theorem count_pyStrip (a : Char) (ha : isPySpace a = false) (l : List Char) :
    (pyStrip l).count a = l.count a := by
  unfold pyStrip
  rw [List.count_reverse, count_dropWhile _ _ ha, List.count_reverse, count_dropWhile _ _ ha]

/-- Stripping a line that starts and ends with non-whitespace and carries one
trailing newline just removes that newline. -/
theorem pyStrip_line (l : List Char) (x y : Char) (hx : isPySpace x = false)
    (hy : isPySpace y = false) (hhead : l.head? = some x) (hlast : l.getLast? = some y) :
    pyStrip (l ++ ['\n']) = l := by
  unfold pyStrip
  have hh : (l ++ ['\n']).head? = some x := by
    rw [List.head?_append, hhead]
    rfl
  rw [dropWhile_eq_self_of_head isPySpace (l ++ ['\n']) x hh hx]
  rw [List.reverse_append]
  show (('\n' :: l.reverse).dropWhile isPySpace).reverse = l
  rw [List.dropWhile_cons, if_pos (by decide)]
  rw [dropWhile_eq_self_of_head isPySpace l.reverse y (by rw [List.head?_reverse]; exact hlast) hy]
  exact List.reverse_reverse l

/-! ### The written ledger line and its parse -/

theorem save_result_data (d : String) (r : CrawlResult) :
    (save_result d r).data = ledger_line_core d r ++ ['\n'] := rfl

theorem getLast?_append_some (l1 l2 : List Char) (c : Char) (h : l2.getLast? = some c) :
    (l1 ++ l2).getLast? = some c := by
  rw [List.getLast?_append, h]
  rfl

theorem getLast?_cons_some (a : Char) (l : List Char) (c : Char) (h : l.getLast? = some c) :
    (a :: l).getLast? = some c := by
  rw [show a :: l = [a] ++ l from rfl]
  exact getLast?_append_some [a] l c h

theorem core_head (d : String) (r : CrawlResult) : (ledger_line_core d r).head? = some 'l' := rfl

theorem core_getLast (d : String) (r : CrawlResult) :
    (ledger_line_core d r).getLast? = some '>' := by
  unfold ledger_line_core
  apply getLast?_append_some
  apply getLast?_cons_some
  apply getLast?_append_some
  apply getLast?_cons_some
  apply getLast?_append_some
  apply getLast?_cons_some
  apply getLast?_append_some
  apply getLast?_cons_some
  apply getLast?_append_some
  apply getLast?_cons_some
  apply getLast?_append_some
  apply getLast?_cons_some
  apply getLast?_append_some
  apply getLast?_cons_some
  apply getLast?_append_some
  decide

theorem pyStrip_save_result (d : String) (r : CrawlResult) :
    pyStrip (save_result d r).data = ledger_line_core d r := by
  rw [save_result_data]
  exact pyStrip_line _ 'l' '>' (by decide) (by decide) (core_head d r) (core_getLast d r)

theorem pySplit_core (d : String) (r : CrawlResult) (hd : '^' ∉ d.data)
    (hu : '^' ∉ r.url.data) (ht : '^' ∉ r.title.data) (hb : '^' ∉ r.body.data) :
    pySplit '^' (ledger_line_core d r) =
      ["locationLong".data, "locationLat".data, "spider".data, d.data, r.url.data,
        "userName".data, "screenName".data,
        "<title>".data ++ r.title.data ++ "</title><body>".data ++ r.body.data ++ "</body>".data] := by
  unfold ledger_line_core
  rw [pySplit_append_cons _ _ _ (by decide)]
  rw [pySplit_append_cons _ _ _ (by decide)]
  rw [pySplit_append_cons _ _ _ (by decide)]
  rw [pySplit_append_cons _ _ _ hd]
  rw [pySplit_append_cons _ _ _ hu]
  rw [pySplit_append_cons _ _ _ (by decide)]
  rw [pySplit_append_cons _ _ _ (by decide)]
  rw [pySplit_no_sep _ _ (by
    intro hmem
    simp only [List.mem_append] at hmem
    rcases hmem with ((((h1 | h2) | h3) | h4) | h5)
    · exact absurd h1 (by decide)
    · exact ht h2
    · exact absurd h3 (by decide)
    · exact hb h4
    · exact absurd h5 (by decide))]

theorem string_mk_data (s : String) : String.mk s.data = s := rfl

theorem string_mk_append (a b : List Char) : String.mk (a ++ b) = String.mk a ++ String.mk b := rfl

theorem stripped_fields (d : String) (r : CrawlResult) (hd : '^' ∉ d.data)
    (hu : '^' ∉ r.url.data) (ht : '^' ∉ r.title.data) (hb : '^' ∉ r.body.data) :
    pySplitCaretStr (pyStripStr (save_result d r)) =
      ["locationLong", "locationLat", "spider", d, r.url, "userName", "screenName",
        "<title>" ++ r.title ++ "</title><body>" ++ r.body ++ "</body>"] := by
  show (pySplit '^' (pyStrip (save_result d r).data)).map (fun l => String.mk l) = _
  rw [pyStrip_save_result, pySplit_core d r hd hu ht hb]
  simp only [List.map_cons, List.map_nil]
  rw [string_mk_append, string_mk_append, string_mk_append, string_mk_append]

theorem specWellFormed_save (d : String) (r : CrawlResult) (hd : '^' ∉ d.data)
    (hu : '^' ∉ r.url.data) (ht : '^' ∉ r.title.data) (hb : '^' ∉ r.body.data) :
    specWellFormed (save_result d r) = true := by
  unfold specWellFormed
  rw [stripped_fields d r hd hu ht hb]
  rfl

theorem specField5_save (d : String) (r : CrawlResult) (hd : '^' ∉ d.data)
    (hu : '^' ∉ r.url.data) (ht : '^' ∉ r.title.data) (hb : '^' ∉ r.body.data) :
    specField5 (save_result d r) = r.url := by
  unfold specField5
  rw [stripped_fields d r hd hu ht hb]
  rfl

/-! ### The ledger loader -/

theorem urlsFromLines_cons (line : String) (rest : List String) :
    urlsFromLines (line :: rest) =
      if (pySplitCaretStr line).length = 8
      then (pySplitCaretStr line).getD 4 "" :: urlsFromLines rest
      else [] := rfl

/-- The loader collects the identity keys of the well-formed prefix of the
file and drops everything from the first malformed line on. -/
theorem urls_crawled_in_file_eq (f : List String) :
    urls_crawled_in_file f = (f.takeWhile specWellFormed).map specField5 := by
  induction f with
  | nil => rfl
  | cons l rest ih =>
    show urlsFromLines (pyStripStr l :: rest.map pyStripStr) = _
    rw [urlsFromLines_cons]
    by_cases hw : specWellFormed l = true
    · have hw8 : (pySplitCaretStr (pyStripStr l)).length = 8 := by
        simpa [specWellFormed] using hw
      rw [if_pos hw8, List.takeWhile_cons, if_pos hw, List.map_cons]
      rw [show urlsFromLines (List.map pyStripStr rest) = urls_crawled_in_file rest from rfl, ih]
      rfl
    · have hw8 : ¬ (pySplitCaretStr (pyStripStr l)).length = 8 := by
        intro hc
        exact hw (by simp [specWellFormed, hc])
      rw [if_neg hw8, List.takeWhile_cons, if_neg hw, List.map_nil]

theorem mem_foldl_append_gen (g : List String → List String) :
    ∀ (files : List (List String)) (init : List String) (x : String),
      (x ∈ files.foldl (fun acc f => acc ++ g f) init ↔ x ∈ init ∨ ∃ f ∈ files, x ∈ g f) := by
  intro files
  induction files with
  | nil =>
    intro init x
    simp
  | cons f fs ih =>
    intro init x
    show x ∈ fs.foldl _ (init ++ g f) ↔ _
    rw [ih (init ++ g f) x]
    simp [List.mem_append, or_assoc]

/-- When every line of the file is well formed, the loader recovers exactly
the identity keys, in order. -/
theorem urls_crawled_in_file_all_wf (f : List String)
    (h : ∀ l ∈ f, specWellFormed l = true) :
    urls_crawled_in_file f = f.map specField5 := by
  rw [urls_crawled_in_file_eq]
  congr 1
  induction f with
  | nil => rfl
  | cons l rest ih =>
    rw [List.takeWhile_cons, if_pos (h l (List.mem_cons_self _ _))]
    rw [ih (fun x hx => h x (List.mem_cons_of_mem _ hx))]

/-! ### Claims C1 and C3 -/

/-- C1, counterexample: in a directory whose single file has a malformed
first line followed by a well-formed line, the well-formed line's 5th field
is not collected, although the claim says every well-formed line's 5th field
is in the returned set. -/
theorem claim_C1_cex :
    specWellFormed "a^b^c^d^url5^f^g^h" = true ∧
    specField5 "a^b^c^d^url5^f^g^h" = "url5" ∧
    "url5" ∉ urls_crawled_in_dir [["bad", "a^b^c^d^url5^f^g^h"]] := by
  decide

/-- C1 (amended): urls_crawled_in_dir returns exactly the 5th fields of the
well-formed (8-field) lines of the longest well-formed prefix of each file;
in particular it contains no value from a malformed line, but well-formed
lines after a file's first malformed line are dropped too. -/
theorem claim_C1 (files : List (List String)) (x : String) :
    x ∈ urls_crawled_in_dir files ↔
      ∃ f ∈ files, x ∈ (f.takeWhile specWellFormed).map specField5 := by
  unfold urls_crawled_in_dir
  rw [mem_foldl_append_gen urls_crawled_in_file files [] x]
  simp [urls_crawled_in_file_eq]

/-- C3: the exclusive lock is released on every exit path of the
orchestrator: when the seed loop completes, unlock_file releases it before
the with-block closes the file, and when the loop raises, the with-block
still closes the file on the way out, which releases the flock lock; the
exception then propagates unchanged. -/
theorem claim_C3 (loopError : Option String) :
    (run_main_locked loopError).1.locked = false ∧
      (run_main_locked loopError).1.isOpen = false ∧
      (run_main_locked loopError).2 = loopError := by
  cases loopError <;> exact ⟨rfl, rfl, rfl⟩

/-! ### The content extractor -/

theorem crawl_eq_none_iff (P : String → Option Page) (url : String) :
    crawl P url = none ↔
      P url = none ∨ ∃ p, P url = some p ∧ (p.title = none ∨ p.body = none) := by
  unfold crawl
  cases hP : P url with
  | none => simp
  | some page =>
    cases ht : page.title with
    | none => simp [ht]
    | some t =>
      cases hb : page.body with
      | none => simp [ht, hb]
      | some pr =>
        cases pr with
        | mk ps ss => simp [ht, hb]

theorem crawl_some (P : String → Option Page) (url : String) (p : Page) (t : String)
    (ps ss : List String) (hp : P url = some p) (ht : p.title = some t)
    (hb : p.body = some (ps, ss)) :
    crawl P url = some ⟨url, t, crawl_body_text ps ss⟩ := by
  simp [crawl, hp, ht, hb]

theorem crawl_some_inv (P : String → Option Page) (url : String) (r : CrawlResult)
    (h : crawl P url = some r) :
    ∃ p t ps ss, P url = some p ∧ p.title = some t ∧ p.body = some (ps, ss) ∧
      r = ⟨url, t, crawl_body_text ps ss⟩ := by
  cases hP : P url with
  | none => simp [crawl, hP] at h
  | some page =>
    cases ht : page.title with
    | none => simp [crawl, hP, ht] at h
    | some t =>
      cases hb : page.body with
      | none => simp [crawl, hP, ht, hb] at h
      | some pr =>
        cases pr with
        | mk ps ss =>
          have h2 : some (⟨url, t, crawl_body_text ps ss⟩ : CrawlResult) = some r := by
            rw [← h]
            simp [crawl, hP, ht, hb]
          exact ⟨page, t, ps, ss, rfl, ht, hb, (Option.some_inj.mp h2).symm⟩

theorem removeCarets_no_caret (s : String) : '^' ∉ (removeCarets s).data := by
  intro h
  have h2 : '^' ∈ s.data.filter (fun c => c ≠ '^') := h
  simp at h2

theorem crawl_body_text_no_caret (ps ss : List String) :
    '^' ∉ (crawl_body_text ps ss).data :=
  removeCarets_no_caret _

/-! ### Claim C5 -/

/-- C5, counterexample: the fetch of the page succeeds, the page merely
lacks a title element — and crawl returns an absent result (soup.title is
None and the attribute access raises), not a record with an empty title
field as the claim states. -/
theorem claim_C5_cex :
    noTitleFetchPage "http://u/" = some pageNoTitle ∧
      pageNoTitle.title = none ∧
      crawl noTitleFetchPage "http://u/" = none := by
  decide

/-- C5 (amended): crawl returns an absent result exactly when the fetch
fails or the fetched page lacks a title element or a body element (either
missing element raises inside the try); when the fetch succeeds and both
elements are present a record is always returned, and a page without
paragraph or span text yields the empty string as the body field. -/
theorem claim_C5 (P : String → Option Page) (url : String) :
    (crawl P url = none ↔
      P url = none ∨ ∃ p, P url = some p ∧ (p.title = none ∨ p.body = none)) ∧
    (∀ p t ps ss, P url = some p → p.title = some t → p.body = some (ps, ss) →
      crawl P url = some ⟨url, t, crawl_body_text ps ss⟩) ∧
    crawl_body_text [] [] = "" := by
  refine ⟨crawl_eq_none_iff P url, ?_, by decide⟩
  intro p t ps ss hp ht hb
  exact crawl_some P url p t ps ss hp ht hb

/-- C5 witness: on the demo site the story page has both elements, and the
amended claim computes its record. -/
theorem claim_C5_witness :
    crawl demoFetchPage "http://ss.aaa/story1" =
      some ⟨"http://ss.aaa/story1", "T", crawl_body_text ["B"] []⟩ :=
  (claim_C5 demoFetchPage "http://ss.aaa/story1").2.1
    { title := some "T", body := some (["B"], []) } "T" ["B"] [] (by decide) rfl rfl

/-! ### Separator counts of a written line -/

theorem count_caret_cons_caret (l : List Char) : ('^' :: l).count '^' = l.count '^' + 1 := by
  simp [List.count_cons]

theorem count_newline_cons_caret (l : List Char) : ('^' :: l).count '\n' = l.count '\n' := by
  simp [List.count_cons]

theorem count_core_caret (d : String) (r : CrawlResult) :
    (ledger_line_core d r).count '^' =
      7 + d.data.count '^' + r.url.data.count '^' + r.title.data.count '^' +
        r.body.data.count '^' := by
  have h1 : "locationLong".data.count '^' = 0 := by decide
  have h2 : "locationLat".data.count '^' = 0 := by decide
  have h3 : "spider".data.count '^' = 0 := by decide
  have h4 : "userName".data.count '^' = 0 := by decide
  have h5 : "screenName".data.count '^' = 0 := by decide
  have h6 : "<title>".data.count '^' = 0 := by decide
  have h7 : "</title><body>".data.count '^' = 0 := by decide
  have h8 : "</body>".data.count '^' = 0 := by decide
  unfold ledger_line_core
  rw [List.count_append, count_caret_cons_caret, List.count_append, count_caret_cons_caret,
    List.count_append, count_caret_cons_caret, List.count_append, count_caret_cons_caret,
    List.count_append, count_caret_cons_caret, List.count_append, count_caret_cons_caret,
    List.count_append, count_caret_cons_caret,
    List.count_append, List.count_append, List.count_append, List.count_append]
  rw [h1, h2, h3, h4, h5, h6, h7, h8]
  omega

theorem count_core_newline (d : String) (r : CrawlResult) :
    (ledger_line_core d r).count '\n' =
      d.data.count '\n' + r.url.data.count '\n' + r.title.data.count '\n' +
        r.body.data.count '\n' := by
  have h1 : "locationLong".data.count '\n' = 0 := by decide
  have h2 : "locationLat".data.count '\n' = 0 := by decide
  have h3 : "spider".data.count '\n' = 0 := by decide
  have h4 : "userName".data.count '\n' = 0 := by decide
  have h5 : "screenName".data.count '\n' = 0 := by decide
  have h6 : "<title>".data.count '\n' = 0 := by decide
  have h7 : "</title><body>".data.count '\n' = 0 := by decide
  have h8 : "</body>".data.count '\n' = 0 := by decide
  unfold ledger_line_core
  rw [List.count_append, count_newline_cons_caret, List.count_append, count_newline_cons_caret,
    List.count_append, count_newline_cons_caret, List.count_append, count_newline_cons_caret,
    List.count_append, count_newline_cons_caret, List.count_append, count_newline_cons_caret,
    List.count_append, count_newline_cons_caret,
    List.count_append, List.count_append, List.count_append, List.count_append]
  rw [h1, h2, h3, h4, h5, h6, h7, h8]
  omega

theorem length_fields_save (d : String) (r : CrawlResult) :
    (pySplitCaretStr (pyStripStr (save_result d r))).length =
      (ledger_line_core d r).count '^' + 1 := by
  show ((pySplit '^' (pyStrip (save_result d r).data)).map (fun l => String.mk l)).length = _
  rw [List.length_map, pyStrip_save_result, pySplit_length]

/-! ### Claims C9 and C6 -/

/-- C9: the separator is stripped only from the body text in crawl, while
the title and url are written verbatim by save_result; hence, for a record
as built by crawl and a separator-free timestamp, the written line splits
into exactly 8 fields iff the record's url and title contain no separator,
and a title containing one makes the line longer than 8 fields and the
loader unable to recover its url. -/
theorem claim_C9 (d url title : String) (ps ss : List String) (hd : '^' ∉ d.data) :
    ((pySplitCaretStr (pyStripStr (save_result d ⟨url, title, crawl_body_text ps ss⟩))).length = 8 ↔
      ('^' ∉ url.data ∧ '^' ∉ title.data)) ∧
    ('^' ∈ title.data →
      urls_crawled_in_file [save_result d ⟨url, title, crawl_body_text ps ss⟩] = []) := by
  have hdc : d.data.count '^' = 0 := List.count_eq_zero.mpr hd
  have hbc : (crawl_body_text ps ss).data.count '^' = 0 :=
    List.count_eq_zero.mpr (crawl_body_text_no_caret ps ss)
  have hlen : (pySplitCaretStr
      (pyStripStr (save_result d ⟨url, title, crawl_body_text ps ss⟩))).length =
      8 + url.data.count '^' + title.data.count '^' := by
    rw [length_fields_save, count_core_caret]
    simp only [hdc, hbc]
    omega
  constructor
  · rw [hlen]
    constructor
    · intro h8
      exact ⟨List.count_eq_zero.mp (by omega), List.count_eq_zero.mp (by omega)⟩
    · rintro ⟨hu, ht⟩
      rw [List.count_eq_zero.mpr hu, List.count_eq_zero.mpr ht]
  · intro hmem
    have hpos : 0 < title.data.count '^' := List.count_pos_iff.mpr hmem
    show urlsFromLines [pyStripStr (save_result d ⟨url, title, crawl_body_text ps ss⟩)] = []
    rw [urlsFromLines_cons, if_neg (by
      intro h8
      rw [hlen] at h8
      omega)]

/-- C9 witness: a concrete record with a caret in the title. -/
theorem claim_C9_witness :
    ((pySplitCaretStr (pyStripStr (save_result "D" ⟨"http://a/b", "T^", crawl_body_text ["B"] []⟩))).length = 8 ↔
      ('^' ∉ "http://a/b".data ∧ '^' ∉ "T^".data)) ∧
    ('^' ∈ "T^".data →
      urls_crawled_in_file [save_result "D" ⟨"http://a/b", "T^", crawl_body_text ["B"] []⟩] = []) :=
  claim_C9 "D" "http://a/b" "T^" ["B"] [] (by decide)

/-- C6: for the record of a page titled T whose single paragraph text is B
(so the body field is B followed by the space appended by the concatenation
rule), save_result appends exactly one newline-terminated line, whose 5th
field is exactly the url and whose 8th field is exactly the composite with
that trailing space inside the body element. -/
theorem claim_C6 (d : String) (hd : '^' ∉ d.data) :
    pySplitCaretStr (pyStripStr (save_result d ⟨"http://a/b", "T", crawl_body_text ["B"] []⟩)) =
      ["locationLong", "locationLat", "spider", d, "http://a/b", "userName", "screenName",
        "<title>T</title><body>B </body>"] ∧
    (save_result d ⟨"http://a/b", "T", crawl_body_text ["B"] []⟩).data.getLast? = some '\n' ∧
    ('\n' ∉ d.data →
      (save_result d ⟨"http://a/b", "T", crawl_body_text ["B"] []⟩).data.count '\n' = 1) := by
  refine ⟨?_, ?_, ?_⟩
  · rw [stripped_fields d _ hd (by decide) (by decide) (by decide)]
    have h8 : ("<title>" ++ "T" ++ "</title><body>" ++ crawl_body_text ["B"] [] ++ "</body>" : String) =
        "<title>T</title><body>B </body>" := by decide
    simp only []
    rw [h8]
  · rw [save_result_data]
    exact List.getLast?_concat _
  · intro hnd
    rw [save_result_data, List.count_append, count_core_newline]
    have hu : "http://a/b".data.count '\n' = 0 := by decide
    have ht : "T".data.count '\n' = 0 := by decide
    have hb : (crawl_body_text ["B"] []).data.count '\n' = 0 := by decide
    simp only [List.count_eq_zero.mpr hnd, hu, ht, hb]
    decide

/-- C6 witness: a concrete separator-free timestamp. -/
theorem claim_C6_witness :
    pySplitCaretStr (pyStripStr (save_result "Mon Oct 12 00:00:00 UTC 2025"
        ⟨"http://a/b", "T", crawl_body_text ["B"] []⟩)) =
      ["locationLong", "locationLat", "spider", "Mon Oct 12 00:00:00 UTC 2025", "http://a/b",
        "userName", "screenName", "<title>T</title><body>B </body>"] ∧
    (save_result "Mon Oct 12 00:00:00 UTC 2025"
        ⟨"http://a/b", "T", crawl_body_text ["B"] []⟩).data.getLast? = some '\n' ∧
    ('\n' ∉ "Mon Oct 12 00:00:00 UTC 2025".data →
      (save_result "Mon Oct 12 00:00:00 UTC 2025"
        ⟨"http://a/b", "T", crawl_body_text ["B"] []⟩).data.count '\n' = 1) :=
  claim_C6 "Mon Oct 12 00:00:00 UTC 2025" (by decide)

/-! ### Link discovery -/

theorem searchG2_cons_step (c : Char) (rest : List Char) :
    searchG2 (c :: rest) =
      match searchG2 rest with
      | some p => if c = '\n' then none else some (c :: p)
      | none => if c = '.' && pubTailOk rest then some [] else none := rfl

theorem searchG2_no_dot (l : List Char) (h : '.' ∉ l) : searchG2 l = none := by
  induction l with
  | nil => rfl
  | cons c rest ih =>
    have h1 : '.' ∉ rest := fun hm => h (List.mem_cons_of_mem _ hm)
    have h2 : ¬ (c = '.') := fun he => h (he ▸ List.mem_cons_self _ _)
    rw [searchG2_cons_step, ih h1]
    simp [h2]

theorem pubTailOk_clean (t : List Char) (h1 : '\n' ∉ t) (h2 : 2 ≤ t.length) :
    pubTailOk t = true := by
  unfold pubTailOk
  have hne : ¬ (t.getLast? = some '\n') := by
    intro hc
    exact h1 (List.mem_of_mem_getLast? hc)
  rw [if_neg hne]
  simp [h2]
  intro x hx he
  exact h1 (he ▸ hx)

theorem searchG2_exact (A T : List Char) (hA : '\n' ∉ A) (hT1 : '\n' ∉ T)
    (hT2 : '.' ∉ T) (hT3 : 2 ≤ T.length) :
    searchG2 (A ++ '.' :: T) = some A := by
  induction A with
  | nil =>
    show searchG2 ('.' :: T) = some []
    rw [searchG2_cons_step, searchG2_no_dot T hT2]
    simp [pubTailOk_clean T hT1 hT3]
  | cons c A2 ih =>
    have h1 : '\n' ∉ A2 := fun hm => hA (List.mem_cons_of_mem _ hm)
    have h2 : ¬ (c = '\n') := fun he => hA (he ▸ List.mem_cons_self _ _)
    show searchG2 (c :: (A2 ++ '.' :: T)) = some (c :: A2)
    rw [searchG2_cons_step, ih h1]
    simp [h2]

theorem isPrefixOf_self_append (p l : List Char) : p.isPrefixOf (p ++ l) = true := by
  induction p with
  | nil => simp [List.isPrefixOf]
  | cons c t ih => simp [List.isPrefixOf, ih]

theorem stripScheme_http (rest : List Char) :
    stripScheme ("http://".data ++ rest) = some rest := by
  unfold stripScheme
  rw [if_pos (isPrefixOf_self_append _ _)]
  rw [show (7 : Nat) = "http://".data.length from rfl, List.drop_left]

theorem seed_publishers_concat (a t : String) (hA : '\n' ∉ a.data) (hT1 : '\n' ∉ t.data)
    (hT2 : '.' ∉ t.data) (hT3 : 2 ≤ t.data.length) (hs : ¬ pyStrip a.data = []) :
    seed_publishers ("http://" ++ a ++ "." ++ t) =
      some ((pySplit '.' a.data).map (fun p => String.mk (p.map Char.toLower))) := by
  have hdata : ("http://" ++ a ++ "." ++ t).data =
      "http://".data ++ (a.data ++ '.' :: t.data) := by
    rw [String.data_append, String.data_append, String.data_append,
      List.append_assoc, List.append_assoc]
    rfl
  have hg2 : searchG2 (a.data ++ '.' :: t.data) = some a.data :=
    searchG2_exact a.data t.data hA hT1 hT2 hT3
  unfold seed_publishers
  rw [hdata, stripScheme_http]
  show (match searchG2 (a.data ++ '.' :: t.data) with
    | none => none
    | some g2 =>
      if pyStrip g2 = [] then none
      else some ((pySplit '.' g2).map (fun p : List Char => String.mk (p.map Char.toLower)))) = _
  rw [hg2]
  show (if pyStrip a.data = [] then none
    else some ((pySplit '.' a.data).map (fun p : List Char => String.mk (p.map Char.toLower)))) = _
  rw [if_neg hs]

/-- C4, counterexample: on the claim's own example the derived token is the
second-to-last label of the host, not the last one. -/
theorem claim_C4_cex :
    publisher_token "http://news.example.com" = some "example" ∧
      ¬ publisher_token "http://news.example.com" = some "com" := by
  decide

theorem getLastD_map_toLower (L : List (List Char)) (hL : L ≠ []) :
    (L.map (fun p => String.mk (p.map Char.toLower))).getLastD "" =
      String.mk ((L.getLastD []).map Char.toLower) := by
  rw [List.getLastD_eq_getLast?, List.getLastD_eq_getLast?, List.getLast?_map]
  cases hx : L.getLast? with
  | none =>
    rw [List.getLast?_eq_getLast L hL] at hx
    cases hx
  | some x => rfl

/-- C4 (amended): for a seed of the form scheme, then a part `a`, then a
final dot followed by a dot-free tail of at least two characters, the
publisher token is the lowercased last dot-label of `a`, that is, the label
before the final dot of the whole url (for http://news.example.com the token
is example, the second-to-last host label, not the last label com), and
get_links builds its story pattern from exactly this token. -/
theorem claim_C4 (a t : String) (hA : '\n' ∉ a.data) (hT1 : '\n' ∉ t.data)
    (hT2 : '.' ∉ t.data) (hT3 : 2 ≤ t.data.length) (hs : ¬ pyStrip a.data = []) :
    publisher_token ("http://" ++ a ++ "." ++ t) =
      some (String.mk (((pySplit '.' a.data).getLastD []).map Char.toLower)) := by
  unfold publisher_token
  rw [seed_publishers_concat a t hA hT1 hT2 hT3 hs]
  show some (((pySplit '.' a.data).map (fun p => String.mk (p.map Char.toLower))).getLastD "") = _
  rw [getLastD_map_toLower _ (pySplit_ne_nil '.' a.data)]

/-- C4 witness: the spec's example host. -/
theorem claim_C4_witness :
    publisher_token ("http://" ++ "news.example" ++ "." ++ "com") =
      some (String.mk (((pySplit '.' "news.example".data).getLastD []).map Char.toLower)) :=
  claim_C4 "news.example" "com" (by decide) (by decide) (by decide) (by decide) (by decide)

theorem mem_get_links (F : String → Option (List String)) (url : String)
    (fl : List String) (link : String) (h : link ∈ get_links F url fl) :
    ∃ publishers hrefs h0, seed_publishers url = some publishers ∧ F url = some hrefs ∧
      h0 ∈ hrefs ∧ link = py_lower h0 ∧
      link_keep publishers (publishers.getLastD "") fl link = true := by
  cases hsp : seed_publishers url with
  | none => simp [get_links, hsp] at h
  | some pubs =>
    cases hf : F url with
    | none => simp [get_links, hsp, hf] at h
    | some hrefs =>
      have h2 : link ∈ (hrefs.map py_lower).filter
          (link_keep pubs (pubs.getLastD "") fl) := by
        have := h
        simp only [get_links, hsp, hf] at this
        exact this
      rw [List.mem_filter] at h2
      rcases List.mem_map.mp h2.1 with ⟨h0, hh0, hlow⟩
      exact ⟨pubs, hrefs, h0, rfl, rfl, hh0, hlow.symm, h2.2⟩

theorem link_keep_parts (publishers : List String) (lp : String) (fl : List String)
    (link : String) (h : link_keep publishers lp fl link = true) :
    pattern_story_match lp link = true ∧
      publishers.any (fun p => pySubstr p link) = true ∧
      (if 0 < fl.length then fl.any (fun f => pySubstr f link) else true) = true := by
  unfold link_keep at h
  rw [Bool.and_eq_true, Bool.and_eq_true] at h
  exact ⟨h.1.1, h.1.2, h.2⟩

/-- When the token carries no vertical bar the compiled pattern is a single
scheme-anchored branch. -/
theorem pattern_story_match_no_bar (tok link : String) (hbar : '|' ∉ tok.data) :
    pattern_story_match tok link = single_branch_match tok.data link := by
  unfold pattern_story_match
  rw [pySplit_no_sep '|' tok.data hbar]

theorem single_branch_scheme (s0 : List Char) (link : String)
    (h : single_branch_match s0 link = true) :
    "http://".data.isPrefixOf link.data = true ∨
      "https://".data.isPrefixOf link.data = true := by
  unfold single_branch_match at h
  cases hs : stripScheme link.data with
  | none => rw [hs] at h; exact absurd h (by simp)
  | some rest =>
    unfold stripScheme at hs
    by_cases h1 : "http://".data.isPrefixOf link.data = true
    · exact Or.inl h1
    · by_cases h2 : "https://".data.isPrefixOf link.data = true
      · exact Or.inr h2
      · rw [if_neg h1, if_neg h2] at hs
        cases hs

/-! ### Claims C7, C8, C10 -/

/-- C7, counterexample: a seed whose derived token contains a vertical bar
(http regex group 2 is x.com/a|b, token com/a|b) turns the compiled story
pattern into an alternation whose last branch is schemeless and unanchored
on the scheme, so get_links returns the schemeless link brown-fox/story. -/
theorem claim_C7_cex :
    "brown-fox/story" ∈ get_links pipeFetchLinks "http://x.com/a|b.html" [] ∧
      ¬ ("http://".data.isPrefixOf "brown-fox/story".data = true ∨
        "https://".data.isPrefixOf "brown-fox/story".data = true) := by
  decide

/-- C7 (amended): for every seed URL whose derived publisher token contains
no vertical bar (the one character that, spliced into the pattern source,
breaks it into extra schemeless alternation branches), every link returned
by get_links starts with the http or https scheme, because the single-branch
story pattern is anchored on the scheme alternation. -/
theorem claim_C7 (F : String → Option (List String)) (url : String) (fl : List String)
    (link : String) (h : link ∈ get_links F url fl)
    (htok : ∀ tok, publisher_token url = some tok → '|' ∉ tok.data) :
    "http://".data.isPrefixOf link.data = true ∨
      "https://".data.isPrefixOf link.data = true := by
  rcases mem_get_links F url fl link h with ⟨pubs, hrefs, h0, hsp, hf, hh0, hlow, hkeep⟩
  have hptok : publisher_token url = some (pubs.getLastD "") := by
    unfold publisher_token
    rw [hsp]
    rfl
  have hpat := (link_keep_parts _ _ _ _ hkeep).1
  rw [pattern_story_match_no_bar _ link (htok _ hptok)] at hpat
  exact single_branch_scheme _ link hpat

/-- C7 witness: the demo site's token ss has no bar, its link is returned
and carries the scheme. -/
theorem claim_C7_witness :
    "http://".data.isPrefixOf "http://ss.aaa/story1".data = true ∨
      "https://".data.isPrefixOf "http://ss.aaa/story1".data = true :=
  claim_C7 demoFetchLinks "http://ss.aaa/" [] "http://ss.aaa/story1" (by decide)
    (by
      intro tok htok2
      rw [show publisher_token "http://ss.aaa/" = some "ss" from by decide] at htok2
      cases htok2
      decide)

/-- C8: with a non-empty filter list, every link returned by get_links
contains at least one filter string as a substring. -/
theorem claim_C8 (F : String → Option (List String)) (url : String) (fl : List String)
    (link : String) (h : link ∈ get_links F url fl) (hfl : ¬ fl = []) :
    ∃ f ∈ fl, pySubstr f link = true := by
  rcases mem_get_links F url fl link h with ⟨pubs, hrefs, h0, hsp, hf, hh0, hlow, hkeep⟩
  have hfil := (link_keep_parts _ _ _ _ hkeep).2.2
  rw [if_pos (List.length_pos.mpr hfl)] at hfil
  simpa using (List.any_eq_true).mp hfil

/-- C8 witness: a filter that occurs in the demo story link. -/
theorem claim_C8_witness : ∃ f ∈ ["story"], pySubstr f "http://ss.aaa/story1" = true :=
  claim_C8 demoFetchLinks "http://ss.aaa/" ["story"] "http://ss.aaa/story1"
    (by decide) (by decide)

/-- C10: every link returned by get_links equals its own lowercase image,
because each href is lowercased before any check or append. -/
theorem claim_C10 (F : String → Option (List String)) (url : String) (fl : List String)
    (link : String) (h : link ∈ get_links F url fl) : py_lower link = link := by
  rcases mem_get_links F url fl link h with ⟨pubs, hrefs, h0, hsp, hf, hh0, hlow, hkeep⟩
  rw [hlow]
  show String.mk ((h0.data.map Char.toLower).map Char.toLower) =
    String.mk (h0.data.map Char.toLower)
  rw [List.map_map]
  congr 1
  apply List.map_congr_left
  intro c _
  exact char_toLower_idem c

/-- C10 witness: the demo link is its own lowercase image. -/
theorem claim_C10_witness : py_lower "http://ss.aaa/story1" = "http://ss.aaa/story1" :=
  claim_C10 demoFetchLinks "http://ss.aaa/" [] "http://ss.aaa/story1" (by decide)

/-! ### The orchestrator runs -/

/-- Invariant of the inner link loop: the initial crawled set stays inside
the in-memory set, and every written line stems from a fresh link (one not
in the initial set) whose crawl succeeded. -/
theorem foldl_process_link_inv (P : String → Option Page) (date : String)
    (LS : String → Prop) (init : List String) :
    ∀ (links : List String) (st : RunState),
      (∀ k ∈ links, LS k) →
      (∀ x ∈ init, x ∈ st.urls_crawled) →
      (∀ l ∈ st.written, ∃ link r, LS link ∧ crawl P link = some r ∧
        l = save_result date r ∧ ¬ link ∈ init) →
      (∀ x ∈ init, x ∈ (links.foldl (process_link P date) st).urls_crawled) ∧
        (∀ l ∈ (links.foldl (process_link P date) st).written,
          ∃ link r, LS link ∧ crawl P link = some r ∧
            l = save_result date r ∧ ¬ link ∈ init) := by
  intro links
  induction links with
  | nil =>
    intro st _ h1 h2
    exact ⟨h1, h2⟩
  | cons k ks ih =>
    intro st hls h1 h2
    show (∀ x ∈ init, x ∈ (ks.foldl (process_link P date)
        (process_link P date st k)).urls_crawled) ∧ _
    apply ih (process_link P date st k) (fun x hx => hls x (List.mem_cons_of_mem _ hx))
    · unfold process_link
      by_cases hmem : k ∈ st.urls_crawled
      · rw [if_pos hmem]
        exact h1
      · rw [if_neg hmem]
        cases hc : crawl P k with
        | some r =>
          intro x hx
          exact List.mem_append_left _ (h1 x hx)
        | none =>
          intro x hx
          exact List.mem_append_left _ (h1 x hx)
    · unfold process_link
      by_cases hmem : k ∈ st.urls_crawled
      · rw [if_pos hmem]
        exact h2
      · rw [if_neg hmem]
        cases hc : crawl P k with
        | some r =>
          intro l hlmem
          rcases List.mem_append.mp hlmem with hold | hnew
          · exact h2 l hold
          · have hleq : l = save_result date r := by simpa using hnew
            exact ⟨k, r, hls k (List.mem_cons_self _ _), hc, hleq,
              fun hk => hmem (h1 k hk)⟩
        | none =>
          intro l hlmem
          exact h2 l hlmem

/-- The same invariant carried through the seed loop of one whole run. -/
theorem run_crawler_written (F : String → Option (List String)) (P : String → Option Page)
    (date : String) (fl : List String) (seeds : List String) (init : List String) :
    ∀ l ∈ (run_crawler F P date fl seeds init).written,
      ∃ link r, (∃ seed, link ∈ get_links F seed fl) ∧ crawl P link = some r ∧
        l = save_result date r ∧ ¬ link ∈ init := by
  suffices h : ∀ (ss : List String) (st : RunState),
      (∀ x ∈ init, x ∈ st.urls_crawled) →
      (∀ l ∈ st.written, ∃ link r, (∃ seed, link ∈ get_links F seed fl) ∧
        crawl P link = some r ∧ l = save_result date r ∧ ¬ link ∈ init) →
      (∀ x ∈ init, x ∈ (ss.foldl (process_seed F P date fl) st).urls_crawled) ∧
        (∀ l ∈ (ss.foldl (process_seed F P date fl) st).written,
          ∃ link r, (∃ seed, link ∈ get_links F seed fl) ∧ crawl P link = some r ∧
            l = save_result date r ∧ ¬ link ∈ init) by
    intro l hl
    exact (h seeds { urls_crawled := init, written := [] }
      (fun x hx => hx) (by intro l hl2; cases hl2)).2 l hl
  intro ss
  induction ss with
  | nil =>
    intro st h1 h2
    exact ⟨h1, h2⟩
  | cons s ss2 ih =>
    intro st h1 h2
    show (∀ x ∈ init, x ∈ (ss2.foldl (process_seed F P date fl)
        (process_seed F P date fl st s)).urls_crawled) ∧ _
    apply ih (process_seed F P date fl st s)
    · unfold process_seed
      by_cases hmem : s ∈ st.urls_crawled
      · rw [if_pos hmem]
        exact h1
      · rw [if_neg hmem]
        exact (foldl_process_link_inv P date
          (fun link => ∃ seed, link ∈ get_links F seed fl) init
          (get_links F s fl) st (fun k hk => ⟨s, hk⟩) h1 h2).1
    · unfold process_seed
      by_cases hmem : s ∈ st.urls_crawled
      · rw [if_pos hmem]
        exact h2
      · rw [if_neg hmem]
        exact (foldl_process_link_inv P date
          (fun link => ∃ seed, link ∈ get_links F seed fl) init
          (get_links F s fl) st (fun k hk => ⟨s, hk⟩) h1 h2).2

/-- Under separator-free titles, hrefs and timestamp, every line a run
writes is well formed, its 5th field is the crawled link, and that link was
not in the crawled set the run started from. -/
theorem run_lines_wf (F : String → Option (List String)) (P : String → Option Page)
    (date : String) (fl : List String) (seeds : List String) (init : List String)
    (hd : '^' ∉ date.data)
    (hl : ∀ u hs h0, F u = some hs → h0 ∈ hs → '^' ∉ h0.data)
    (ht : ∀ u p t0, P u = some p → p.title = some t0 → '^' ∉ t0.data) :
    ∀ l ∈ (run_crawler F P date fl seeds init).written,
      specWellFormed l = true ∧ ∃ link, specField5 l = link ∧ ¬ link ∈ init := by
  intro l hl2
  rcases run_crawler_written F P date fl seeds init l hl2 with
    ⟨link, r, ⟨seed, hlink⟩, hc, hleq, hnot⟩
  rcases crawl_some_inv P link r hc with ⟨p, t0, ps, ss, hp, ht0, hbody, hr⟩
  have hu : '^' ∉ r.url.data := by
    rcases mem_get_links F seed fl link hlink with ⟨pubs, hrefs, h0, _, hf, hh0, hlow, _⟩
    rw [hr]
    intro hc2
    have hc3 : '^' ∈ link.data := hc2
    rw [hlow] at hc3
    exact hl seed hrefs h0 hf hh0 (mem_py_lower_of_lt h0 '^' (by decide) hc3)
  have hti : '^' ∉ r.title.data := by
    rw [hr]
    exact ht link p t0 hp ht0
  have hbo : '^' ∉ r.body.data := by
    rw [hr]
    exact crawl_body_text_no_caret ps ss
  subst hleq
  refine ⟨specWellFormed_save date r hd hu hti hbo, r.url, specField5_save date r hd hu hti hbo, ?_⟩
  have hurl : r.url = link := by
    rw [hr]
  rw [hurl]
  exact hnot

/-! ### Physical lines of the ledger file -/

theorem mem_pyStrip (x : Char) (l : List Char) (h : x ∈ pyStrip l) : x ∈ l := by
  unfold pyStrip at h
  rw [List.mem_reverse] at h
  have h2 : x ∈ (l.dropWhile isPySpace).reverse :=
    (List.dropWhile_sublist isPySpace).subset h
  rw [List.mem_reverse] at h2
  exact (List.dropWhile_sublist isPySpace).subset h2

theorem foldl_body_no_newline (L : List String) (hL : ∀ s ∈ L, '\n' ∉ s.data) :
    ∀ acc : String, '\n' ∉ acc.data →
      '\n' ∉ (L.foldl (fun acc2 s => acc2 ++ pyStripStr s ++ " ") acc).data := by
  induction L with
  | nil =>
    intro acc h
    exact h
  | cons s L2 ih =>
    intro acc hacc
    apply ih (fun x hx => hL x (List.mem_cons_of_mem _ hx))
    intro hmem
    rw [String.data_append, String.data_append] at hmem
    rcases List.mem_append.mp hmem with h1 | h2
    · rcases List.mem_append.mp h1 with h3 | h4
      · exact hacc h3
      · exact hL s (List.mem_cons_self _ _) (mem_pyStrip _ _ h4)
    · exact absurd h2 (by decide)

theorem crawl_body_text_no_newline (ps ss : List String)
    (h : ∀ s ∈ ps ++ ss, '\n' ∉ s.data) : '\n' ∉ (crawl_body_text ps ss).data := by
  intro hmem
  have h2 : '\n' ∈ (((ps ++ ss).foldl
      (fun acc s => acc ++ pyStripStr s ++ " ") "").data.filter (fun c => c ≠ '^')) := hmem
  rw [List.mem_filter] at h2
  exact foldl_body_no_newline (ps ++ ss) h "" (by decide) h2.1

theorem pyReadLines_cons_step (c : Char) (rest : List Char) :
    pyReadLines (c :: rest) =
      if c = '\n' then "\n" :: pyReadLines rest
      else
        match pyReadLines rest with
        | [] => [String.mk [c]]
        | h :: t => String.mk (c :: h.data) :: t := rfl

/-- readlines cuts the stream right after a newline-free chunk's newline. -/
theorem pyReadLines_line_append (core : List Char) (hcore : '\n' ∉ core)
    (rest : List Char) :
    pyReadLines (core ++ '\n' :: rest) = String.mk (core ++ ['\n']) :: pyReadLines rest := by
  induction core with
  | nil =>
    show pyReadLines ('\n' :: rest) = String.mk ['\n'] :: pyReadLines rest
    rw [pyReadLines_cons_step, if_pos rfl]
  | cons c core2 ih =>
    have h1 : '\n' ∉ core2 := fun hm => hcore (List.mem_cons_of_mem _ hm)
    have h2 : ¬ (c = '\n') := fun he => hcore (he ▸ List.mem_cons_self _ _)
    show pyReadLines (c :: (core2 ++ '\n' :: rest)) = _
    rw [pyReadLines_cons_step, if_neg h2, ih h1]
    rfl

/-- When every written string is one newline-terminated line with no
interior newline, the physical lines of the file are exactly the written
strings. -/
theorem ledger_physical_lines_eq (ws : List String)
    (h : ∀ w ∈ ws, ∃ core, w.data = core ++ ['\n'] ∧ '\n' ∉ core) :
    ledger_physical_lines ws = ws := by
  unfold ledger_physical_lines
  induction ws with
  | nil => rfl
  | cons w ws2 ih =>
    rcases h w (List.mem_cons_self _ _) with ⟨core, hw, hcore⟩
    rw [List.map_cons, List.flatten_cons, hw, List.append_assoc, List.singleton_append]
    rw [pyReadLines_line_append core hcore]
    rw [ih (fun x hx => h x (List.mem_cons_of_mem _ hx))]
    congr 1
    rw [← hw]

/-- Under newline-free timestamp, hrefs, titles and paragraph or span texts,
every line a run writes is a single newline-terminated physical line. -/
theorem run_lines_shape (F : String → Option (List String)) (P : String → Option Page)
    (date : String) (fl : List String) (seeds : List String) (init : List String)
    (hd2 : '\n' ∉ date.data)
    (hl2 : ∀ u hs h0, F u = some hs → h0 ∈ hs → '\n' ∉ h0.data)
    (ht2 : ∀ u p t0, P u = some p → p.title = some t0 → '\n' ∉ t0.data)
    (hb : ∀ u p ps ss s, P u = some p → p.body = some (ps, ss) → s ∈ ps ++ ss →
      '\n' ∉ s.data) :
    ∀ l ∈ (run_crawler F P date fl seeds init).written,
      ∃ core, l.data = core ++ ['\n'] ∧ '\n' ∉ core := by
  intro l hml
  rcases run_crawler_written F P date fl seeds init l hml with
    ⟨link, r, ⟨seed, hlink⟩, hc, hleq, hnot⟩
  rcases crawl_some_inv P link r hc with ⟨p, t0, ps, ss, hp, ht0, hbody, hr⟩
  refine ⟨ledger_line_core date r, by rw [hleq]; rfl, ?_⟩
  have hu : '\n' ∉ r.url.data := by
    rcases mem_get_links F seed fl link hlink with ⟨pubs, hrefs, h0, _, hf, hh0, hlow, _⟩
    rw [hr]
    intro hc2
    have hc3 : '\n' ∈ link.data := hc2
    rw [hlow] at hc3
    exact hl2 seed hrefs h0 hf hh0 (mem_py_lower_of_lt h0 '\n' (by decide) hc3)
  have hti : '\n' ∉ r.title.data := by
    rw [hr]
    exact ht2 link p t0 hp ht0
  have hbo : '\n' ∉ r.body.data := by
    rw [hr]
    exact crawl_body_text_no_newline ps ss (fun s hs => hb link p ps ss s hp hbody hs)
  intro hmem
  have hcnt := List.count_pos_iff.mpr hmem
  rw [count_core_newline] at hcnt
  rw [List.count_eq_zero.mpr hd2, List.count_eq_zero.mpr hu,
    List.count_eq_zero.mpr hti, List.count_eq_zero.mpr hbo] at hcnt
  exact absurd hcnt (by decide)

/-! ### Claim C2 -/

/-- C2, counterexample: the story's title contains the separator, so the
line written by run 1 has 9 fields, the loader recovers nothing from the
ledger, and run 2 writes a line whose 5th field duplicates the 5th field of
run 1's line. -/
theorem claim_C2_cex :
    urls_crawled_in_file
        (ledger_physical_lines
          (run_crawler demoFetchLinks caretFetchPage "D" [] ["http://ss.aaa/"] []).written) = [] ∧
      (run_crawler demoFetchLinks caretFetchPage "D" [] ["http://ss.aaa/"]
          (urls_crawled_in_file
            (ledger_physical_lines
              (run_crawler demoFetchLinks caretFetchPage "D" []
                ["http://ss.aaa/"] []).written))).written.map
          specField5 = ["http://ss.aaa/story1"] ∧
      (run_crawler demoFetchLinks caretFetchPage "D" [] ["http://ss.aaa/"] []).written.map
        specField5 = ["http://ss.aaa/story1"] := by
  decide

/-- Pairwise form of the amended C2: no line of run 2 shares its 5th field
with a line of run 1. -/
theorem run2_field5_fresh (F : String → Option (List String)) (P : String → Option Page)
    (date : String) (fl : List String) (seeds : List String)
    (hd1 : '^' ∉ date.data)
    (hl : ∀ u hs h0, F u = some hs → h0 ∈ hs → '^' ∉ h0.data)
    (ht : ∀ u p t0, P u = some p → p.title = some t0 → '^' ∉ t0.data) :
    ∀ l2 ∈ (run_crawler F P date fl seeds
        (urls_crawled_in_file (run_crawler F P date fl seeds []).written)).written,
      ∀ l1 ∈ (run_crawler F P date fl seeds []).written,
        ¬ specField5 l2 = specField5 l1 := by
  have hl2 : ∀ u hs h0, F u = some hs → h0 ∈ hs → '^' ∉ h0.data := hl
  have ht2 : ∀ u p t0, P u = some p → p.title = some t0 → '^' ∉ t0.data := ht
  have hwf1 : ∀ l ∈ (run_crawler F P date fl seeds []).written, specWellFormed l = true :=
    fun l hl3 => (run_lines_wf F P date fl seeds [] hd1 hl2 ht2 l hl3).1
  have hload : urls_crawled_in_file (run_crawler F P date fl seeds []).written =
      (run_crawler F P date fl seeds []).written.map specField5 :=
    urls_crawled_in_file_all_wf _ hwf1
  intro l2 hml2 l1 hml1 heq
  rcases (run_lines_wf F P date fl seeds
      (urls_crawled_in_file (run_crawler F P date fl seeds []).written)
      hd1 hl2 ht2 l2 hml2).2 with ⟨link, hf5, hnot⟩
  apply hnot
  rw [hload, ← hf5, heq]
  exact List.mem_map_of_mem specField5 hml1

/-- C2 (amended): provided the timestamp, every href and every title of the
fetched pages contain neither the separator nor a newline, and every
paragraph or span text contains no newline (a separator in a title is
exactly the counterexample; a newline in any of them would split the written
record over several physical lines and strand the loader), a second run
against the unchanged seed set and a ledger directory whose physical lines
are exactly what run 1 appended writes no line whose 5th field duplicates a
5th-field value already present: the identity keys written by run 2
intersect those of run 1 in nothing. -/
theorem claim_C2 (F : String → Option (List String)) (P : String → Option Page)
    (date : String) (fl : List String) (seeds : List String)
    (hd1 : '^' ∉ date.data) (hd2 : '\n' ∉ date.data)
    (hl : ∀ u hs h0, F u = some hs → h0 ∈ hs → '^' ∉ h0.data ∧ '\n' ∉ h0.data)
    (ht : ∀ u p t0, P u = some p → p.title = some t0 → '^' ∉ t0.data ∧ '\n' ∉ t0.data)
    (hb : ∀ u p ps ss s, P u = some p → p.body = some (ps, ss) → s ∈ ps ++ ss →
      '\n' ∉ s.data) :
    (run_crawler F P date fl seeds
        (urls_crawled_in_file
          (ledger_physical_lines (run_crawler F P date fl seeds []).written))).written.map
        specField5 ∩
      (run_crawler F P date fl seeds []).written.map specField5 = [] := by
  have hshape : ∀ l ∈ (run_crawler F P date fl seeds []).written,
      ∃ core, l.data = core ++ ['\n'] ∧ '\n' ∉ core :=
    run_lines_shape F P date fl seeds [] hd2
      (fun u hs h0 ha hb2 => (hl u hs h0 ha hb2).2)
      (fun u p t0 ha hb2 => (ht u p t0 ha hb2).2) hb
  rw [ledger_physical_lines_eq _ hshape]
  rw [List.eq_nil_iff_forall_not_mem]
  intro x hx
  rw [List.mem_inter_iff] at hx
  rcases List.mem_map.mp hx.1 with ⟨l2, hml2, hf2⟩
  rcases List.mem_map.mp hx.2 with ⟨l1, hml1, hf1⟩
  exact run2_field5_fresh F P date fl seeds hd1
    (fun u hs h0 ha hb2 => (hl u hs h0 ha hb2).1)
    (fun u p t0 ha hb2 => (ht u p t0 ha hb2).1)
    l2 hml2 l1 hml1 (hf2.trans hf1.symm)

/-- C2 witness: the demo site with a clean title satisfies every hypothesis,
so its second run duplicates nothing. -/
theorem claim_C2_witness :
    (run_crawler demoFetchLinks demoFetchPage "D" [] ["http://ss.aaa/"]
        (urls_crawled_in_file
          (ledger_physical_lines
            (run_crawler demoFetchLinks demoFetchPage "D" []
              ["http://ss.aaa/"] []).written))).written.map
        specField5 ∩
      (run_crawler demoFetchLinks demoFetchPage "D" [] ["http://ss.aaa/"] []).written.map
        specField5 = [] :=
  claim_C2 demoFetchLinks demoFetchPage "D" [] ["http://ss.aaa/"] (by decide) (by decide)
    (by
      intro u hs h0 hEq hmem
      unfold demoFetchLinks at hEq
      split at hEq
      · cases hEq
        have h2 : h0 = "http://ss.aaa/story1" := by simpa using hmem
        subst h2
        exact ⟨by decide, by decide⟩
      · cases hEq)
    (by
      intro u p t0 hEq ht0
      unfold demoFetchPage at hEq
      split at hEq
      · cases hEq
        have h2 : some "T" = some t0 := ht0
        cases h2
        exact ⟨by decide, by decide⟩
      · cases hEq)
    (by
      intro u p ps ss s hEq hbody hmem
      unfold demoFetchPage at hEq
      split at hEq
      · cases hEq
        have h2 : some ((["B"], []) : List String × List String) = some (ps, ss) := hbody
        cases h2
        have h3 : s = "B" := by simpa using hmem
        subst h3
        decide
      · cases hEq)

end Crawler
